import Mathlib

/-!
# Verification of the bidder config watcher (`main.go`)

A shallow embedding of the configuration-file updater: the polling loop
`pollAndUpdate`, the change detector, the canonical value formatter
`formatFloat`, the `.env` rewriter `updateEnvFile` (regex-based line
replacement plus append, then an atomic temp-file/rename write) and the
re-reader `parseEnvToMap`.

Strings are modelled as their character lists (`Line := List Char`);
`float64` values are modelled as the exact rational numbers they denote
(JSON cannot carry NaN/Inf, and a binary double scaled by `10^6` is never
an exact half, so decimal rounding of a double has no ties).
-/

/-- A line (or any piece of text) as its list of characters. -/
abbrev Line := List Char

/-- Whitespace class `\s` of Go's `regexp` (RE2): `[\t\n\f\r ]`. -/
def isGoSpace (c : Char) : Bool :=
  c == ' ' || c == '\t' || c == '\n' || c == '\x0c' || c == '\r'

/-- Go's `unicode.IsSpace` (the White_Space property), used by
`strings.TrimSpace`. -/
def isUniSpace (c : Char) : Bool :=
  c == '\t' || c == '\n' || c == '\x0b' || c == '\x0c' || c == '\r' || c == ' ' ||
  c.toNat == 0x85 || c.toNat == 0xA0 || c.toNat == 0x1680 ||
  (0x2000 ≤ c.toNat && c.toNat ≤ 0x200A) ||
  c.toNat == 0x2028 || c.toNat == 0x2029 || c.toNat == 0x202F ||
  c.toNat == 0x205F || c.toNat == 0x3000

/-- `strings.TrimSpace`: drop Unicode whitespace from both ends. -/
def trimSpace (l : Line) : Line :=
  ((l.dropWhile isUniSpace).reverse.dropWhile isUniSpace).reverse

/-- `strings.TrimRight(s, cutset)` for a one-character cutset: remove all
trailing occurrences of `c`. -/
def trimRightChar (c : Char) (l : Line) : Line :=
  (l.reverse.dropWhile (· == c)).reverse

/-- Split text at `'\n'` characters, the line structure used by a `(?m)`
anchored regular expression (auxiliary accumulator version). -/
def splitNLAux : List Char → List Char → List Line
  | [], acc => [acc.reverse]
  | c :: cs, acc =>
    if c = '\n' then acc.reverse :: splitNLAux cs [] else splitNLAux cs (c :: acc)

/-- Split text at `'\n'` characters. `"a\nb"` gives `["a", "b"]`;
`"a\n"` gives `["a", ""]`. -/
def splitNL (cs : List Char) : List Line :=
  splitNLAux cs []

/-- Rejoin lines with `'\n'` (inverse of `splitNL`). -/
def joinNL : List Line → List Char
  | [] => []
  | [l] => l
  | l :: ls => l ++ '\n' :: joinNL ls

/-- `strings.HasSuffix(content, "\n")` on character lists. -/
def endsNL (cs : List Char) : Bool :=
  match cs.getLast? with
  | some '\n' => true
  | _ => false

/-- Decimal digits of a natural number, most significant first. -/
def natDigits (n : ℕ) : List Char :=
  Nat.toDigits 10 n

/-- `⌊q * 10^6 + 1/2⌋` for `q ≥ 0`, written on `num`/`den` so it computes
by integer arithmetic alone: the decimal rounding step of
`fmt.Sprintf("%.6f", q)`. (A binary double times `10^6` is never an exact
half, so round-half-up agrees with Go's correct rounding of the underlying
double on every reachable input.) -/
def round6 (q : ℚ) : ℤ :=
  (2 * q.num * 1000000 + (q.den : ℤ)) / (2 * (q.den : ℤ))

/-- `fmt.Sprintf("%.6f", q)` for `q ≥ 0`: round to six decimal places and
render with exactly six fractional digits. -/
def fixed6 (q : ℚ) : List Char :=
  let n := (round6 q).toNat
  let i := n / 1000000
  let f := n % 1000000
  let fd := natDigits f
  natDigits i ++ '.' :: (List.replicate (6 - fd.length) '0' ++ fd)

/-- `formatFloat` from `main.go`:
`strings.TrimRight(strings.TrimRight(fmt.Sprintf("%.6f", f), "0"), ".")`. -/
def formatFloat (q : ℚ) : String :=
  let s := if q < 0 then '-' :: fixed6 (-q) else fixed6 q
  ⟨trimRightChar '.' (trimRightChar '0' s)⟩

/-! ## Parsing (`parseEnvToMap`, used by `confirmEnvValues`) -/

/-- The characters of the literal `"export"`. -/
def exportChars : Line := ['e', 'x', 'p', 'o', 'r', 't']

/-- The characters of the literal `"export "` (with the trailing space). -/
def exportSp : Line := exportChars ++ [' ']

/-- `dropCR` of `bufio.ScanLines`: strip one trailing carriage return. -/
def dropCR (l : Line) : Line :=
  match l.getLast? with
  | some '\r' => l.dropLast
  | _ => l

/-- The tokens produced by a `bufio.Scanner` with `ScanLines`: split at
`'\n'`, drop a final empty token when the data ends in a newline, and
strip one trailing `'\r'` from each token. -/
def scanLines (data : List Char) : List Line :=
  if data = [] then []
  else (if endsNL data then (splitNL data).dropLast else splitNL data).map dropCR

/-- The body of `parseEnvToMap`'s scan loop for a single line: skip blank
and `#` lines, strip an optional `export ` marker (re-trimming), split at
the first `'='` (skipping lines with no `'='` or an empty left-hand side),
and return the trimmed key with the untouched remainder as value. -/
def parseLine (l : Line) : Option (Line × Line) :=
  let t := trimSpace l
  if t = [] then none
  else if t.head? = some '#' then none
  else
    let t2 := if exportSp.isPrefixOf t then trimSpace (t.drop 7) else t
    let pre := t2.takeWhile (fun c => c != '=')
    let post := t2.dropWhile (fun c => c != '=')
    match post with
    | [] => none
    | _ :: rest => if pre = [] then none else some (trimSpace pre, rest)

/-- Insertion into a Go `map[string]string`, modelled as an association
list: overwrite an existing binding, otherwise append. -/
def mapInsert (m : List (Line × Line)) (k v : Line) : List (Line × Line) :=
  if m.any (fun p => p.1 == k) then
    m.map (fun p => if p.1 == k then (k, v) else p)
  else m ++ [(k, v)]

/-- `parseEnvToMap` from `main.go`. -/
def parseEnvToMap (data : List Char) : List (Line × Line) :=
  (scanLines data).foldl
    (fun m l =>
      match parseLine l with
      | some (k, v) => mapInsert m k v
      | none => m)
    []

/-- Lookup in the association-list model of a Go map. -/
def envLookup (m : List (Line × Line)) (k : Line) : Option Line :=
  (m.find? (fun p => p.1 == k)).map (fun p => p.2)

/-! ## The `.env` rewrite (`updateEnvFile`, lines 196–229)

For each key the Go code runs
`regexp.MustCompile((?m)^(export\s+)?KEY=.*$).ReplaceAllStringFunc`,
replacing every matched line by the captured export prefix, the key, `=`
and the new value.  A match starts at a line start and is one of:

* a *plain* line `KEY=...`;
* an *inline export* line `export<ws>KEY=...` (`<ws>` nonempty);
* a *chain*: a line that is exactly `export` plus whitespace, followed by
  whitespace-only lines, whose first non-whitespace continuation line is
  `<ws>KEY=...` — possible because `\s` also matches `'\n'` while the
  captured prefix is echoed verbatim, so only the terminal line changes.

(For the keys this program uses — which never begin with whitespace —
the greedy `\s+` always ends at the first non-whitespace character, which
is what the `dropWhile`/`takeWhile` below encode.) -/

/-- Match of `^KEY=.*$` with no export group. -/
def matchPlain (key l : Line) : Bool :=
  (key ++ ['=']).isPrefixOf l

/-- Match of `^export\s+KEY=.*$` within one line; returns the captured
prefix `export<ws>`. -/
def exportInlinePrefix (key l : Line) : Option Line :=
  if exportChars.isPrefixOf l then
    let t := l.drop 6
    let ws := t.takeWhile isGoSpace
    if ws != [] && (key ++ ['=']).isPrefixOf (t.dropWhile isGoSpace) then
      some (exportChars ++ ws)
    else none
  else none

/-- A line that is `export` followed only by whitespace: the `\s+` of the
export group can continue across the newline. -/
def chainStarts (l : Line) : Bool :=
  exportChars.isPrefixOf l && (l.drop 6).all isGoSpace

/-- Terminal line of a cross-newline export match: optional whitespace,
then `KEY=`. -/
def chainTerm (key l : Line) : Bool :=
  (key ++ ['=']).isPrefixOf (l.dropWhile isGoSpace)

/-- A line consisting solely of whitespace. -/
def wsOnlyLine (l : Line) : Bool :=
  l.all isGoSpace

/-- One `ReplaceAllStringFunc` pass over the document's lines for one
key: replace every match by prefix + `key=val`, and report whether any
replacement happened (the `replaced` flag of `updateEnvFile`).

`inChain = true` records that the previous lines were an
`export`-plus-whitespace line followed only by whitespace-only lines, so
the greedy `\s+` of a pending export-group match is still running; those
already-consumed lines are echoed verbatim by the replacement, so only
the terminal line of such a match ever changes.  A whitespace-only line
keeps the chain alive, a `<ws>KEY=...` line ends it as a match, and any
other line ends it without a match and is scanned as a fresh line start
(no line but these can begin or extend a match, so the scan is a single
left-to-right pass). -/
def applyKey (key val : Line) : Bool → List Line → List Line × Bool
  | _, [] => ([], false)
  | inChain, l :: ls =>
    if inChain && wsOnlyLine l then
      let p := applyKey key val true ls
      (l :: p.1, p.2)
    else if inChain && chainTerm key l then
      let p := applyKey key val false ls
      ((l.takeWhile isGoSpace ++ key ++ '=' :: val) :: p.1, true)
    else if matchPlain key l then
      let p := applyKey key val false ls
      ((key ++ '=' :: val) :: p.1, true)
    else
      match exportInlinePrefix key l with
      | some pre =>
        let p := applyKey key val false ls
        ((pre ++ key ++ '=' :: val) :: p.1, true)
      | none =>
        let p := applyKey key val (chainStarts l) ls
        (l :: p.1, p.2)

/-- The whole-content replacement for one key (lines 198–206):
`content = re.ReplaceAllStringFunc(content, ...)` plus the `replaced`
flag. -/
def replaceAll (key val : Line) (content : List Char) : List Char × Bool :=
  let p := applyKey key val false (splitNL content)
  (joinNL p.1, p.2)

/-- The first `for key, val := range updates` loop: thread the content
through `replaceAll` for each update, recording each key's `changed`
flag. -/
def replacePhase : List Char → List (Line × Line) → List Char × List (Line × Line × Bool)
  | c, [] => (c, [])
  | c, (k, v) :: rest =>
    let p := replaceAll k v c
    let q := replacePhase p.1 rest
    (q.1, (k, v, p.2) :: q.2)

/-- The second loop: append `key=val` lines for keys that were not
replaced, inserting a separating newline before the first append when the
builder is nonempty and does not already end in one. -/
def appendPhase : List Char → Bool → List (Line × Line × Bool) → List Char
  | b, _, [] => b
  | b, htn, (k, v, repl) :: rest =>
    if repl then appendPhase b htn rest
    else
      let b1 := if !b.isEmpty && !htn then b ++ ['\n'] else b
      appendPhase (b1 ++ (k ++ '=' :: (v ++ ['\n']))) true rest

/-- The pure content transformation of `updateEnvFile` (lines 196–229):
replace phase, append phase, then ensure a trailing newline. -/
def updateEnvContentChars (content : List Char) (updates : List (Line × Line)) : List Char :=
  let p := replacePhase content updates
  let out := appendPhase p.1 (endsNL p.1) p.2
  if endsNL out then out else out ++ ['\n']

/-- `updateEnvFile`'s content transformation on `String`s.  The update
set is a list of key/value pairs; the Go `map` iteration order is
arbitrary, so theorems below either use singleton update sets or state
order-insensitive facts. -/
def updateEnvContent (content : String) (updates : List (String × String)) : String :=
  ⟨updateEnvContentChars content.data (updates.map fun kv => (kv.1.data, kv.2.data))⟩

/-! ## Change detection and the polling cycle (`pollAndUpdate`)

`float64` snapshot values are modelled as the exact rationals they
denote; `*float64` / `*int` payload fields become `Option`s.  The HTTP
fetch and JSON decode happen before any state is read or written, so the
cycle is modelled from the decoded payload on; the outcomes of the two
fallible file steps (`updateEnvFile`, `confirmEnvValues`) enter as the
booleans `applyOk` and `confirmOk`. -/

/-- Environment variable name for the small bid (`envSmallBid`). -/
def envSmallBid : String := "BID_SMALL_AMOUNT"

/-- Environment variable name for the large bid (`envLargeBid`). -/
def envLargeBid : String := "BID_LARGE_AMOUNT"

/-- Environment variable name for the concurrency bound
(`envMaxConcurrency`). -/
def envMaxConcurrency : String := "BIDDER_MAX_CONCURRENT_PROOFS"

/-- `LastSeen` from `main.go`: the Baseline. -/
structure LastSeen where
  SmallBid : ℚ := 0
  HasSmallBid : Bool := false
  LargeBid : ℚ := 0
  HasLargeBid : Bool := false
  MaxConcurrency : ℤ := 0
  HasMaxConcurrency : Bool := false
  Initialized : Bool := false
deriving DecidableEq

/-- `ConfigPayload` from `main.go`: one poll's snapshot, each field
independently optional. -/
structure ConfigPayload where
  SmallBid : Option ℚ
  LargeBid : Option ℚ
  MaxConcurrency : Option ℤ
deriving DecidableEq

/-- `fmt.Sprintf("%d", n)`: plain decimal rendering of an integer. -/
def formatInt (n : ℤ) : String :=
  ⟨if n < 0 then '-' :: natDigits n.natAbs else natDigits n.natAbs⟩

/-- The change-detection block of `pollAndUpdate` (lines 114–131): build
the update set from the snapshot and the baseline.  The Go code inserts
into a map in this same small/large/max order. -/
def computeUpdates (payload : ConfigPayload) (last : LastSeen) : List (String × String) :=
  (match payload.SmallBid with
   | some v =>
     if !last.Initialized || !last.HasSmallBid || decide (last.SmallBid ≠ v) then
       [(envSmallBid, formatFloat v)]
     else []
   | none => []) ++
  (match payload.LargeBid with
   | some v =>
     if !last.Initialized || !last.HasLargeBid || decide (last.LargeBid ≠ v) then
       [(envLargeBid, formatFloat v)]
     else []
   | none => []) ++
  (match payload.MaxConcurrency with
   | some v =>
     if !last.Initialized || !last.HasMaxConcurrency || decide (last.MaxConcurrency ≠ v) then
       [(envMaxConcurrency, formatInt v)]
     else []
   | none => [])

/-- The baseline advance of `pollAndUpdate` (lines 151–163), run only
after apply and confirm both succeed: record every present snapshot
field and set `Initialized`. -/
def advanceBaseline (payload : ConfigPayload) (last : LastSeen) : LastSeen :=
  let l1 := match payload.SmallBid with
    | some v => { last with SmallBid := v, HasSmallBid := true }
    | none => last
  let l2 := match payload.LargeBid with
    | some v => { l1 with LargeBid := v, HasLargeBid := true }
    | none => l1
  let l3 := match payload.MaxConcurrency with
    | some v => { l2 with MaxConcurrency := v, HasMaxConcurrency := true }
    | none => l2
  { l3 with Initialized := true }

/-- One cycle of `pollAndUpdate` from the decoded payload on: diff, early
return on an empty update set, apply, confirm, advance baseline.  The
returned boolean is "the function returned without error"; a reload
failure is only logged and does not undo the advance, so it does not
appear here. -/
def pollCycle (payload : ConfigPayload) (last : LastSeen)
    (applyOk confirmOk : Bool) : LastSeen × Bool :=
  let updates := computeUpdates payload last
  if updates.isEmpty then (last, true)
  else if !applyOk then (last, false)
  else if !confirmOk then (last, false)
  else (advanceBaseline payload last, true)

/-! ## The atomic write of `updateEnvFile` (lines 231–264)

The temp-file/rename dance is modelled as a step sequence over a tiny
filesystem (the target's content and the temp file's content, if either
exists).  `failAt` names the first syscall that fails, `none` for a fully
successful run; a syscall that is not reached (or, for `chmod`, not
executed because the target did not pre-exist) cannot fail.  The `defer`
removes the temp file on every early return; after a successful rename
the temp name no longer exists and the deferred remove is a no-op. -/

/-- The fallible syscalls of the atomic-write sequence, in program
order. -/
inductive WStep
  | createTemp
  | chmod
  | write
  | sync
  | close
  | rename
deriving DecidableEq

/-- The two files `updateEnvFile` can touch: the target `.env` and its
temporary sibling (`none` = the file does not exist). -/
structure EnvFS where
  target : Option (List Char)
  temp : Option (List Char)
deriving DecidableEq

/-- The write/rename part of `updateEnvFile` (lines 231–264) as a state
transition: returns the final filesystem and whether the call
succeeded. -/
def updateEnvFileFS (content : List Char) (failAt : Option WStep) (fs : EnvFS) :
    EnvFS × Bool :=
  if failAt = some WStep.createTemp then (fs, false)
  else
    let fs1 : EnvFS := { fs with temp := some [] }
    if failAt = some WStep.chmod ∧ fs.target.isSome then ({ fs1 with temp := none }, false)
    else if failAt = some WStep.write then ({ fs1 with temp := none }, false)
    else
      let fs2 : EnvFS := { fs1 with temp := some content }
      if failAt = some WStep.sync then ({ fs2 with temp := none }, false)
      else if failAt = some WStep.close then ({ fs2 with temp := none }, false)
      else if failAt = some WStep.rename then ({ fs2 with temp := none }, false)
      else ({ target := some content, temp := none }, true)

/-- A line that no match for `key` can end on: neither a plain `key=`
line, nor an inline `export<ws>key=` line, nor the terminal line of a
cross-newline export match. -/
def keyFree (key l : Line) : Bool :=
  !matchPlain key l && (exportInlinePrefix key l).isNone && !chainTerm key l

/-- A `keyFree` line that moreover cannot start a cross-newline export
chain. -/
def inert (key l : Line) : Bool :=
  keyFree key l && !chainStarts l

/-- Checker for "ends with exactly one trailing newline". -/
def endsExactlyOneNL (cs : List Char) : Bool :=
  endsNL cs && !endsNL cs.dropLast

/-! ## Model checks on concrete inputs -/

example : formatFloat (mkRat 500000000001 1000000000000) = "0.5" := by decide
example : formatFloat 10 = "10" := by decide
example : formatFloat (mkRat 1 10000000) = "0" := by decide
example : formatFloat (mkRat 1 10) = "0.1" := by decide
example : formatFloat (mkRat (-1) 10) = "-0.1" := by decide
example : formatFloat 0 = "0" := by decide

example : parseLine "A=b ".data = some ("A".data, "b".data) := by decide
example : parseLine " A =  b".data = some ("A".data, "  b".data) := by decide
example : parseLine "export A=b".data = some ("A".data, "b".data) := by decide
example : parseLine "# A=b".data = none := by decide
example : parseLine "   ".data = none := by decide
example : parseLine "=b".data = none := by decide
example : parseLine "no equals".data = none := by decide
example : envLookup (parseEnvToMap "A=1\nB=2\nA=3\n".data) "A".data
    = some "3".data := by decide

example : updateEnvContent "A=1\n\n" [("A", "9")] = "A=9\n\n" := by decide
example : updateEnvContent "A=1" [("B", "2")] = "A=1\nB=2\n" := by decide
example : updateEnvContent "" [("B", "2")] = "B=2\n" := by decide
example : updateEnvContent "# A=1\nexport A=1\n" [("A", "9")]
    = "# A=1\nexport A=9\n" := by decide
example : updateEnvContent "A=1\nA=2\n" [("A", "9")] = "A=9\nA=9\n" := by decide
example : updateEnvContent "export\n  A=1\n" [("A", "9")]
    = "export\n  A=9\n" := by decide
example : updateEnvContent "AB=1\n" [("A", "9")] = "AB=1\nA=9\n" := by decide

/-! ## Helper lemmas -/

/-- `endsNL` holds after appending a newline. -/
theorem endsNL_concat (xs : List Char) : endsNL (xs ++ ['\n']) = true := by
  simp [endsNL]

/-- A trailing newline checked on a shape ending in `'\n'`. -/
theorem endsNL_append_cons_nl (xs k v : List Char) :
    endsNL (xs ++ (k ++ '=' :: (v ++ ['\n']))) = true := by
  have h : xs ++ (k ++ '=' :: (v ++ ['\n'])) = (xs ++ k ++ '=' :: v) ++ ['\n'] := by
    simp
  rw [h, endsNL_concat]

theorem splitNLAux_ne_nil (cs acc : List Char) : splitNLAux cs acc ≠ [] := by
  induction cs generalizing acc with
  | nil => simp [splitNLAux]
  | cons c cs ih =>
    by_cases hc : c = '\n' <;> simp [splitNLAux, hc, ih]

/-- `joinNL` of a cons with a nonempty tail. -/
theorem joinNL_cons_of_ne_nil (a : Line) (ls : List Line) (h : ls ≠ []) :
    joinNL (a :: ls) = a ++ '\n' :: joinNL ls := by
  cases ls with
  | nil => exact absurd rfl h
  | cons b t => rfl

theorem joinNL_splitNLAux (cs acc : List Char) :
    joinNL (splitNLAux cs acc) = acc.reverse ++ cs := by
  induction cs generalizing acc with
  | nil => simp [splitNLAux, joinNL]
  | cons c cs ih =>
    by_cases hc : c = '\n'
    · subst hc
      rw [splitNLAux, if_pos rfl,
        joinNL_cons_of_ne_nil _ _ (splitNLAux_ne_nil cs []), ih]
      simp
    · rw [splitNLAux, if_neg hc, ih]
      simp

/-- Rejoining the split lines reproduces the content. -/
theorem joinNL_splitNL (cs : List Char) : joinNL (splitNL cs) = cs := by
  simpa using joinNL_splitNLAux cs []

theorem splitNLAux_no_nl (l : Line) (h : '\n' ∉ l) (acc : List Char) :
    splitNLAux l acc = [acc.reverse ++ l] := by
  induction l generalizing acc with
  | nil => simp [splitNLAux]
  | cons c cs ih =>
    have hc : c ≠ '\n' := fun he => h (he ▸ List.mem_cons_self c cs)
    have hcs : '\n' ∉ cs := fun hm => h (List.mem_cons_of_mem c hm)
    rw [splitNLAux, if_neg hc, ih hcs]
    simp

theorem splitNLAux_line_cons (l : Line) (h : '\n' ∉ l) (rest : List Char) (acc : List Char) :
    splitNLAux (l ++ '\n' :: rest) acc = (acc.reverse ++ l) :: splitNLAux rest [] := by
  induction l generalizing acc with
  | nil => simp [splitNLAux]
  | cons c cs ih =>
    have hc : c ≠ '\n' := fun he => h (he ▸ List.mem_cons_self c cs)
    have hcs : '\n' ∉ cs := fun hm => h (List.mem_cons_of_mem c hm)
    rw [List.cons_append, splitNLAux, if_neg hc, ih hcs]
    simp

/-- Splitting a rejoined newline-free line list gives it back. -/
theorem splitNL_joinNL (ls : List Line) (hne : ls ≠ [])
    (h : ∀ l ∈ ls, '\n' ∉ l) : splitNL (joinNL ls) = ls := by
  induction ls with
  | nil => exact absurd rfl hne
  | cons a t ih =>
    cases t with
    | nil =>
      have ha : '\n' ∉ a := h a (by simp)
      simp [joinNL, splitNL, splitNLAux_no_nl a ha]
    | cons b t2 =>
      have ha : '\n' ∉ a := h a (by simp)
      have ht : ∀ l ∈ b :: t2, '\n' ∉ l := fun l hl => h l (List.mem_cons_of_mem a hl)
      rw [joinNL_cons_of_ne_nil a _ (by simp), splitNL,
        splitNLAux_line_cons a ha _ []]
      have := ih (by simp) ht
      rw [splitNL] at this
      rw [this]
      simp

/-- A list is a `isPrefixOf` of itself extended on the right. -/
theorem isPrefixOf_append_self (l t : Line) : l.isPrefixOf (l ++ t) = true := by
  rw [List.isPrefixOf_iff_prefix]
  exact List.prefix_append l t

/-- `matchPlain` holds on a plain `key=...` line. -/
theorem matchPlain_self (key r : Line) : matchPlain key (key ++ '=' :: r) = true := by
  have h : key ++ '=' :: r = (key ++ ['=']) ++ r := by simp
  rw [matchPlain, h]
  exact isPrefixOf_append_self _ _

/-- Computation of the inline export match on an `export KEY=...` line
whose key does not begin with whitespace. -/
theorem exportInlinePrefix_target (key r : Line) (c : Char) (k' : Line)
    (hK : key = c :: k') (hc : isGoSpace c = false) :
    exportInlinePrefix key (exportSp ++ key ++ '=' :: r) = some exportSp := by
  subst hK
  have hshape : exportSp ++ (c :: k') ++ '=' :: r
      = exportChars ++ (' ' :: ((c :: k') ++ '=' :: r)) := by
    simp [exportSp]
  have hdrop : (exportChars ++ (' ' :: ((c :: k') ++ '=' :: r))).drop 6
      = ' ' :: ((c :: k') ++ '=' :: r) := by
    have h6 : exportChars.length = 6 := rfl
    rw [← h6, List.drop_left]
  have hsp : isGoSpace ' ' = true := by decide
  have htake : (' ' :: ((c :: k') ++ '=' :: r)).takeWhile isGoSpace = [' '] := by
    simp [List.takeWhile_cons, hsp, hc]
  have hdropw : (' ' :: ((c :: k') ++ '=' :: r)).dropWhile isGoSpace
      = (c :: k') ++ '=' :: r := by
    simp [List.dropWhile_cons, hsp, hc]
  have hpre : ((c :: k') ++ ['=']).isPrefixOf ((c :: k') ++ '=' :: r) = true := by
    have h : (c :: k') ++ '=' :: r = ((c :: k') ++ ['=']) ++ r := by simp
    rw [h]
    exact isPrefixOf_append_self _ _
  rw [hshape]
  simp only [exportInlinePrefix, isPrefixOf_append_self exportChars, if_true, hdrop,
    htake, hdropw, hpre]
  simp [exportSp]

/-- On a document of `keyFree` lines the replacement pass is the
identity and reports no replacement, from any scan state. -/
theorem applyKey_keyFree (key val : Line) (ls : List Line)
    (h : ∀ l ∈ ls, keyFree key l = true) (st : Bool) :
    applyKey key val st ls = (ls, false) := by
  induction ls generalizing st with
  | nil => rfl
  | cons l ls ih =>
    have hl := h l (by simp)
    have hrest : ∀ x ∈ ls, keyFree key x = true := fun x hx => h x (by simp [hx])
    rw [keyFree, Bool.and_eq_true, Bool.and_eq_true] at hl
    obtain ⟨⟨h1, h2⟩, h3⟩ := hl
    rw [Bool.not_eq_true'] at h1 h3
    rw [Option.isNone_iff_eq_none] at h2
    cases hws : st && wsOnlyLine l with
    | true => simp [applyKey, hws, h3, h1, h2, ih hrest]
    | false => simp [applyKey, hws, h3, h1, h2, ih hrest]

/-- Scanning from the clean state, a prefix of `inert` lines passes
through unchanged and leaves the scan state clean. -/
theorem applyKey_append_inert (key val : Line) (p rest : List Line)
    (h : ∀ l ∈ p, inert key l = true) :
    applyKey key val false (p ++ rest)
      = (p ++ (applyKey key val false rest).1, (applyKey key val false rest).2) := by
  induction p with
  | nil => simp
  | cons l p ih =>
    have hl := h l (by simp)
    have hrest : ∀ x ∈ p, inert key x = true := fun x hx => h x (by simp [hx])
    rw [inert, Bool.and_eq_true] at hl
    obtain ⟨hk, hcs⟩ := hl
    rw [keyFree, Bool.and_eq_true, Bool.and_eq_true] at hk
    obtain ⟨⟨h1, h2⟩, h3⟩ := hk
    rw [Bool.not_eq_true'] at h1 h3 hcs
    rw [Option.isNone_iff_eq_none] at h2
    simp [applyKey, h1, h2, hcs, ih hrest]

/-- Unfolding of the scan at a plain `KEY=...` match. -/
theorem applyKey_cons_plain (key val l : Line) (ls : List Line)
    (h : matchPlain key l = true) :
    applyKey key val false (l :: ls)
      = ((key ++ '=' :: val) :: (applyKey key val false ls).1, true) := by
  simp [applyKey, h]

/-- Unfolding of the scan at an inline `export<ws>KEY=...` match. -/
theorem applyKey_cons_inline (key val l pro : Line) (ls : List Line)
    (h1 : matchPlain key l = false) (h2 : exportInlinePrefix key l = some pro) :
    applyKey key val false (l :: ls)
      = ((pro ++ key ++ '=' :: val) :: (applyKey key val false ls).1, true) := by
  simp [applyKey, h1, h2]

/-- On a `keyFree` document `replaceAll` is the identity with a `false`
flag. -/
theorem replaceAll_keyFree (key val : Line) (content : List Char)
    (h : ∀ l ∈ splitNL content, keyFree key l = true) :
    replaceAll key val content = (content, false) := by
  rw [replaceAll, applyKey_keyFree key val _ h false]
  simp [joinNL_splitNL]

/-! ## Claims -/

/-- C6: canonical decimal formatting renders at fixed six-decimal
precision and then strips trailing fractional zeros (and a bare trailing
decimal point): `formatFloat 0.500000000001 = "0.5"` and
`formatFloat 10.0 = "10"`. -/
theorem formatFloat_fixed_precision_examples :
    formatFloat (mkRat 500000000001 1000000000000) = "0.5" ∧
    formatFloat 10 = "10" := by
  decide

/-- C10 (counterexample): on a value whose six-decimal rendering is all
zeros, such as `1e-7`, `formatFloat` returns `"0"`, not the empty string:
`TrimRight(..., "0")` stops at the decimal point, leaving `"0."`, and the
second trim then yields `"0"`. -/
theorem formatFloat_tiny_not_empty :
    formatFloat (mkRat 1 10000000) = "0" ∧ ("0" : String) ≠ "" := by
  decide

/-- C10 (amended): for every nonnegative value whose six-decimal
rendering consists only of zeros, `formatFloat` returns `"0"` (so the
data line written for such a parameter is `KEY=0`). -/
theorem formatFloat_allzero_returns_zero (q : ℚ) (h0 : 0 ≤ q)
    (hr : round6 q = 0) : formatFloat q = "0" := by
  have hneg : ¬ q < 0 := not_lt.mpr h0
  simp only [formatFloat, fixed6, hr, if_neg hneg]
  decide

theorem formatFloat_allzero_returns_zero_witness :
    0 ≤ mkRat 1 10000000 ∧ formatFloat (mkRat 1 10000000) = "0" :=
  ⟨by decide, formatFloat_allzero_returns_zero (mkRat 1 10000000) (by decide) (by decide)⟩

/-- C2 (counterexample): the line `A=b ` parses to value `"b"`, not
`"b "`: `parseEnvToMap` trims the whole line before splitting, so
trailing whitespace of the value is stripped, contradicting "the value is
not trimmed, so leading and trailing whitespace in the value is
preserved". -/
theorem parseLine_trailing_space_stripped :
    parseLine "A=b ".data = some ("A".data, "b".data) ∧ "b ".data ≠ "b".data := by
  decide

theorem takeWhile_dropWhile_first_eq (pre rest : Line) (hpre : '=' ∉ pre) :
    (pre ++ '=' :: rest).takeWhile (fun c => c != '=') = pre ∧
    (pre ++ '=' :: rest).dropWhile (fun c => c != '=') = '=' :: rest := by
  induction pre with
  | nil => simp [List.takeWhile_cons, List.dropWhile_cons]
  | cons c p ih =>
    have hc : c ≠ '=' := fun he => hpre (he ▸ List.mem_cons_self c p)
    have hp : '=' ∉ p := fun hm => hpre (List.mem_cons_of_mem c hm)
    obtain ⟨h1, h2⟩ := ih hp
    simp [List.takeWhile_cons, List.dropWhile_cons, hc, h1, h2]

/-- C2 (amended): `parseEnvToMap` first trims whitespace from both ends
of the whole line (and after stripping an `export ` marker re-trims);
it then splits the trimmed text at its first `'='`, takes the trimmed
left-hand side as the key and the remainder of the *trimmed* text,
untouched, as the value — so leading whitespace in the value survives
while whitespace at the end of the line is stripped. -/
theorem parseLine_splits_trimmed_line (l pre rest : Line)
    (hhash : (trimSpace l).head? ≠ some '#')
    (ht : (if exportSp.isPrefixOf (trimSpace l) then trimSpace ((trimSpace l).drop 7)
           else trimSpace l) = pre ++ '=' :: rest)
    (hpre : '=' ∉ pre) (hne : pre ≠ []) :
    parseLine l = some (trimSpace pre, rest) := by
  have hTne : trimSpace l ≠ [] := by
    intro h0
    rw [h0] at ht
    rw [if_neg (by decide : ¬ exportSp.isPrefixOf ([] : Line) = true)] at ht
    exact List.noConfusion (List.append_eq_nil.mp ht.symm |>.2)
  obtain ⟨h1, h2⟩ := takeWhile_dropWhile_first_eq pre rest hpre
  simp only [parseLine, if_neg hTne, if_neg hhash, ht, h1, h2, if_neg hne]

theorem parseLine_splits_trimmed_line_witness :
    parseLine " A= b ".data = some ("A".data, " b".data) := by
  rw [parseLine_splits_trimmed_line " A= b ".data "A".data " b".data
    (by decide) (by decide) (by decide) (by decide)]
  decide

/-- C1 (counterexample): on the input `"A=1\n\n"` with update set
`{A: 9}` the rewrite replaces the existing line and keeps both trailing
newlines, so the output does not end with exactly one trailing
newline. -/
theorem updateEnv_two_trailing_newlines :
    updateEnvContent "A=1\n\n" [("A", "9")] = "A=9\n\n" ∧
    endsExactlyOneNL (updateEnvContent "A=1\n\n" [("A", "9")]).data = false := by
  decide

/-- C1 (amended): for every input content and every non-empty update
set, the output of `updateEnvFile` ends with a trailing newline (the
code appends one when missing, but never strips extra trailing newlines
already present in the input). -/
theorem updateEnv_ends_with_newline (content : String)
    (updates : List (String × String)) (_hne : updates ≠ []) :
    endsNL (updateEnvContent content updates).data = true := by
  simp only [updateEnvContent, updateEnvContentChars]
  split
  · next h => exact h
  · exact endsNL_concat _

theorem updateEnv_ends_with_newline_witness :
    ([("A", "9")] : List (String × String)) ≠ [] ∧
    endsNL (updateEnvContent "" [("A", "9")]).data = true :=
  ⟨by decide, updateEnv_ends_with_newline "" [("A", "9")] (by decide)⟩

/-- C3: when the apply step or the confirm step fails, the baseline
(`LastSeen`) after the cycle equals the baseline before it, in every
field: `pollAndUpdate` only writes to `last` after both steps
succeed. -/
theorem pollCycle_keeps_baseline_on_failure (payload : ConfigPayload)
    (last : LastSeen) (applyOk confirmOk : Bool)
    (h : applyOk = false ∨ confirmOk = false) :
    (pollCycle payload last applyOk confirmOk).1 = last := by
  rcases h with h | h <;> subst h <;> simp only [pollCycle] <;> split_ifs <;>
    first
    | rfl
    | simp_all

theorem pollCycle_keeps_baseline_on_failure_witness :
    (pollCycle ⟨some 1, none, none⟩ ⟨0, false, 0, false, 0, false, false⟩
        false true).1 = ⟨0, false, 0, false, 0, false, false⟩ :=
  pollCycle_keeps_baseline_on_failure _ _ _ _ (Or.inl rfl)

/-- C4: if the atomic write fails at any step before the rename — temp
creation, chmod, write, sync, or close — the temp file is removed and
the target is exactly as before; and on every run, the target either
stays unchanged or (only via the successful rename) becomes the fully
written new content. -/
theorem updateEnvFileFS_failure_preserves_target (content : List Char)
    (fs : EnvFS) (htmp : fs.temp = none) :
    (∀ s : WStep, s ≠ WStep.rename →
      (updateEnvFileFS content (some s) fs).2 = false →
      (updateEnvFileFS content (some s) fs).1 = ⟨fs.target, none⟩) ∧
    (∀ failAt : Option WStep,
      (updateEnvFileFS content failAt fs).1.target = fs.target ∨
        ((updateEnvFileFS content failAt fs).2 = true ∧
          (updateEnvFileFS content failAt fs).1.target = some content)) := by
  obtain ⟨t, tmp⟩ := fs
  simp only at htmp
  subst htmp
  constructor
  · intro s hs hf
    cases s <;> cases t <;> simp_all [updateEnvFileFS]
  · intro failAt
    cases failAt with
    | none => simp [updateEnvFileFS]
    | some s => cases s <;> cases t <;> simp [updateEnvFileFS]

theorem updateEnvFileFS_failure_preserves_target_witness :
    (updateEnvFileFS ['x'] (some WStep.write) ⟨some ['y'], none⟩).2 = false ∧
    (updateEnvFileFS ['x'] (some WStep.write) ⟨some ['y'], none⟩).1
      = ⟨some ['y'], none⟩ :=
  ⟨by decide,
    (updateEnvFileFS_failure_preserves_target ['x'] ⟨some ['y'], none⟩ rfl).1
      WStep.write (by decide) (by decide)⟩

/-- C5: a parameter is in the update set iff it is present in the
snapshot and the baseline is uninitialized, lacks that parameter, or
records a different value (exact equality); absent parameters never
appear; and an initialized baseline that agrees with every present field
yields an empty update set. -/
theorem computeUpdates_membership (payload : ConfigPayload) (last : LastSeen) :
    ((envSmallBid ∈ (computeUpdates payload last).map Prod.fst) ↔
      ∃ v, payload.SmallBid = some v ∧
        (last.Initialized = false ∨ last.HasSmallBid = false ∨ last.SmallBid ≠ v)) ∧
    ((envLargeBid ∈ (computeUpdates payload last).map Prod.fst) ↔
      ∃ v, payload.LargeBid = some v ∧
        (last.Initialized = false ∨ last.HasLargeBid = false ∨ last.LargeBid ≠ v)) ∧
    ((envMaxConcurrency ∈ (computeUpdates payload last).map Prod.fst) ↔
      ∃ v, payload.MaxConcurrency = some v ∧
        (last.Initialized = false ∨ last.HasMaxConcurrency = false ∨
          last.MaxConcurrency ≠ v)) ∧
    (last.Initialized = true →
      (∀ v, payload.SmallBid = some v → last.HasSmallBid = true ∧ last.SmallBid = v) →
      (∀ v, payload.LargeBid = some v → last.HasLargeBid = true ∧ last.LargeBid = v) →
      (∀ v, payload.MaxConcurrency = some v →
        last.HasMaxConcurrency = true ∧ last.MaxConcurrency = v) →
      computeUpdates payload last = []) := by
  obtain ⟨sb, lb, mc⟩ := payload
  have h12 : envSmallBid ≠ envLargeBid := by decide
  have h13 : envSmallBid ≠ envMaxConcurrency := by decide
  have h23 : envLargeBid ≠ envMaxConcurrency := by decide
  refine ⟨?_, ?_, ?_, ?_⟩
  · cases sb <;> cases lb <;> cases mc <;>
      simp only [computeUpdates] <;>
      first
      | (split_ifs <;>
          simp_all [h12, h13, h12.symm, h13.symm, Bool.or_eq_true, Bool.not_eq_true'] <;>
          tauto)
      | simp_all [h12, h13, h12.symm, h13.symm, Bool.or_eq_true, Bool.not_eq_true']
  · cases sb <;> cases lb <;> cases mc <;>
      simp only [computeUpdates] <;>
      first
      | (split_ifs <;>
          simp_all [h12.symm, h23, h12, h23.symm, Bool.or_eq_true, Bool.not_eq_true'] <;>
          tauto)
      | simp_all [h12.symm, h23, h12, h23.symm, Bool.or_eq_true, Bool.not_eq_true']
  · cases sb <;> cases lb <;> cases mc <;>
      simp only [computeUpdates] <;>
      first
      | (split_ifs <;>
          simp_all [h13.symm, h23.symm, h13, h23, Bool.or_eq_true, Bool.not_eq_true'] <;>
          tauto)
      | simp_all [h13.symm, h23.symm, h13, h23, Bool.or_eq_true, Bool.not_eq_true']
  · intro hI hS hL hM
    cases hsb : sb <;> cases hlb : lb <;> cases hmc : mc <;>
      simp_all [computeUpdates]

theorem computeUpdates_membership_witness :
    envSmallBid ∈
      (computeUpdates ⟨some (mkRat 1 10), none, none⟩
        ⟨0, false, 0, false, 0, false, false⟩).map Prod.fst :=
  (computeUpdates_membership ⟨some (mkRat 1 10), none, none⟩
      ⟨0, false, 0, false, 0, false, false⟩).1.mpr
    ⟨mkRat 1 10, rfl, Or.inl rfl⟩

/-- C7: applying `{K: V}` to a document with no data line for `K` (no
line matches `K`, in any of the three match shapes) appends exactly one
new line `K=V` at the end — after a separating newline when the content
was nonempty without a trailing one — and changes nothing else. -/
theorem appendPhase_cons_false (b : List Char) (htn : Bool) (k v : Line)
    (rest : List (Line × Line × Bool)) :
    appendPhase b htn ((k, v, false) :: rest) =
      appendPhase ((if !b.isEmpty && !htn then b ++ ['\n'] else b)
        ++ (k ++ '=' :: (v ++ ['\n']))) true rest := by
  simp [appendPhase]

theorem appendPhase_nil (b : List Char) (htn : Bool) :
    appendPhase b htn [] = b := rfl

theorem updateEnv_append_when_absent (content K V : String)
    (hfree : ∀ l ∈ splitNL content.data, keyFree K.data l = true) :
    updateEnvContent content [(K, V)] =
      ⟨(if !content.data.isEmpty && !endsNL content.data then content.data ++ ['\n']
        else content.data) ++ (K.data ++ '=' :: (V.data ++ ['\n']))⟩ := by
  have hrep := replaceAll_keyFree K.data V.data content.data hfree
  simp only [updateEnvContent, List.map]
  congr 1
  simp only [updateEnvContentChars, replacePhase, hrep]
  rw [appendPhase_cons_false, appendPhase_nil]
  rw [if_pos (endsNL_append_cons_nl _ _ _)]

theorem updateEnv_append_when_absent_witness :
    updateEnvContent "X=1\n" [("A", "9")] = "X=1\nA=9\n" := by
  rw [updateEnv_append_when_absent "X=1\n" "A" "9" (by decide)]
  decide

/-- C8: applying `{K: V2}` to a document containing the data line
`export K=V1` (no other line for `K`) yields `export K=V2` at the same
position, export marker retained, all other lines unchanged. -/
theorem replaceAll_export_in_place (pre post : List Line) (K V1 V2 : Line)
    (c : Char) (K' : Line) (hK : K = c :: K') (hc : isGoSpace c = false)
    (hplain : matchPlain K (exportSp ++ K ++ '=' :: V1) = false)
    (hpre : ∀ l ∈ pre, inert K l = true)
    (hpost : ∀ l ∈ post, keyFree K l = true)
    (hnl : ∀ l ∈ pre ++ (exportSp ++ K ++ '=' :: V1) :: post, '\n' ∉ l) :
    replaceAll K V2 (joinNL (pre ++ (exportSp ++ K ++ '=' :: V1) :: post))
      = (joinNL (pre ++ (exportSp ++ K ++ '=' :: V2) :: post), true) := by
  rw [replaceAll]
  rw [splitNL_joinNL _ (by simp) hnl]
  rw [applyKey_append_inert K V2 pre _ hpre]
  rw [applyKey_cons_inline K V2 _ exportSp post hplain
    (exportInlinePrefix_target K V1 c K' hK hc)]
  rw [applyKey_keyFree K V2 post hpost false]

theorem replaceAll_export_in_place_witness :
    replaceAll "A".data "9".data
      (joinNL (["# c".data] ++ (exportSp ++ "A".data ++ '=' :: "1".data) :: ["B=2".data]))
      = (joinNL (["# c".data] ++ (exportSp ++ "A".data ++ '=' :: "9".data) :: ["B=2".data]),
         true) :=
  replaceAll_export_in_place ["# c".data] ["B=2".data] "A".data "1".data "9".data
    'A' [] (by decide) (by decide) (by decide) (by decide) (by decide) (by decide)

/-- C9: when the key occurs as a data line on more than one line, the
rewrite replaces the value on every matching line, not just one. -/
theorem replaceAll_all_occurrences (p1 p2 p3 : List Line) (K r1 r2 V : Line)
    (hp1 : ∀ l ∈ p1, inert K l = true) (hp2 : ∀ l ∈ p2, inert K l = true)
    (hp3 : ∀ l ∈ p3, keyFree K l = true)
    (hnl : ∀ l ∈ p1 ++ (K ++ '=' :: r1) :: (p2 ++ (K ++ '=' :: r2) :: p3), '\n' ∉ l) :
    replaceAll K V (joinNL (p1 ++ (K ++ '=' :: r1) :: (p2 ++ (K ++ '=' :: r2) :: p3)))
      = (joinNL (p1 ++ (K ++ '=' :: V) :: (p2 ++ (K ++ '=' :: V) :: p3)), true) := by
  rw [replaceAll]
  rw [splitNL_joinNL _ (by simp) hnl]
  rw [applyKey_append_inert K V p1 _ hp1]
  rw [applyKey_cons_plain K V _ _ (matchPlain_self K r1)]
  rw [applyKey_append_inert K V p2 _ hp2]
  rw [applyKey_cons_plain K V _ _ (matchPlain_self K r2)]
  rw [applyKey_keyFree K V p3 hp3 false]

theorem replaceAll_all_occurrences_witness :
    replaceAll "A".data "9".data
      (joinNL ([] ++ ("A".data ++ '=' :: "1".data) ::
        ([] ++ ("A".data ++ '=' :: "2".data) :: [])))
      = (joinNL ([] ++ ("A".data ++ '=' :: "9".data) ::
          ([] ++ ("A".data ++ '=' :: "9".data) :: [])), true) :=
  replaceAll_all_occurrences [] [] [] "A".data "1".data "2".data "9".data
    (by decide) (by decide) (by decide) (by decide)
